import Mathlib

/-!
Verification of the xkcd-search repository against its specification.

The repository's core services (the search service's Service with Search,
SearchIndex and BuildIndex, and the update service's Orchestrator with
Update, Status, Stats and Drop) are not among the provided sources; only
their unit tests, their ports and their adapters are.  Definitions for the
missing cores are therefore modelled from the specification (and pinned by
the in-repo unit tests where those constrain behaviour); each such
definition carries a doc comment starting with
"Modelled from the spec:".  Adapter code (the update gRPC server, the REST
handlers, the periodic index updater) is embedded directly from the Go
sources.
-/

namespace SearchCore

/-- Errors of the search core: an absent item or empty result set, or an
upstream failure carrying its message. -/
inductive Err where
  | notFound
  | upstream (msg : String)
deriving Repr, DecidableEq

/-- A corpus item as the search paths see it: its id and the keyword
sequence derived at ingestion. -/
structure Comics where
  id : Nat
  keywords : List String
deriving Repr, DecidableEq

/-- Modelled from the spec: the relevance score of one item is the count of
normalized query terms present in its keyword set (spec 4.2). -/
def score (terms : List String) (c : Comics) : Nat :=
  (terms.filter (fun t => c.keywords.contains t)).length

/-- Modelled from the spec: the result order relation on (id, score)
entries, "orders by descending score, ties broken by ascending id"
(spec 4.2).  rankRel a b holds when a may come no later than b. -/
def rankRel (a b : Nat × Nat) : Prop :=
  b.2 < a.2 ∨ (a.2 = b.2 ∧ a.1 ≤ b.1)

instance : DecidableRel rankRel := fun _a _b =>
  inferInstanceAs (Decidable (Or _ _))

instance : IsTotal (Nat × Nat) rankRel :=
  ⟨by intro x y; unfold rankRel; omega⟩

instance : IsTrans (Nat × Nat) rankRel :=
  ⟨by intro a b c; unfold rankRel; omega⟩

instance : IsAntisymm (Nat × Nat) rankRel :=
  ⟨by
    intro a b h1 h2
    unfold rankRel at h1 h2
    have hfst : a.1 = b.1 := by omega
    have hsnd : a.2 = b.2 := by omega
    exact Prod.ext hfst hsnd⟩

/-- Modelled from the spec: score every stored item and drop zero-score
items (spec 4.2). -/
def scoredOf (terms : List String) (items : List Comics) : List (Nat × Nat) :=
  (items.map (fun c => (c.id, score terms c))).filter (fun p => 0 < p.2)

/-- Modelled from the spec: truncation of a ranked result list, "truncates
to limit (0 = unlimited)" (spec 4.2 and 6). -/
def truncate (limit : Nat) (l : List (Nat × Nat)) : List (Nat × Nat) :=
  if limit = 0 then l else l.take limit

/-- The corpus store as seen through the search service's DB port: the
stored items, keyed by id. -/
structure Store where
  items : List Comics
deriving Repr, DecidableEq

/-- A store is well formed when the stored ids are pairwise distinct (items
are keyed by id, spec 3) and positive (ids are positive integers, spec 3). -/
def Store.WF (st : Store) : Prop :=
  (st.items.map (fun c => c.id)).Nodup ∧ ∀ c ∈ st.items, 1 ≤ c.id

instance (st : Store) : Decidable st.WF :=
  inferInstanceAs (Decidable (And _ _))

/-- Modelled from the spec: Search(phrase, limit) after normalization
(spec 4.2): scan every stored item, score it, drop zero-score items, fail
with NotFound when nothing remains, otherwise order by descending score
with ties ascending by id and truncate to the limit (0 = unlimited).  The
phrase is represented by its normalized term list, the Normalizer being an
external collaborator (spec 6). -/
def Service.Search (terms : List String) (st : Store) (limit : Nat) :
    Except Err (List (Nat × Nat)) :=
  let ranked := List.insertionSort rankRel (scoredOf terms st.items)
  if ranked.isEmpty then .error .notFound
  else .ok (truncate limit ranked)

/-- Modelled from the spec: the in-memory inverted index, represented by
its id-to-keywords entries (the projection needed to render results,
spec 3); the posting list of a term is derived from the entries. -/
structure Index where
  entries : List Comics
deriving Repr, DecidableEq

/-- Modelled from the spec: the posting list of one term — the ids of the
indexed items whose keywords contain the term (spec 3, Index invariant). -/
def Index.Get (idx : Index) (t : String) : List Nat :=
  (idx.entries.filter (fun c => c.keywords.contains t)).map (fun c => c.id)

/-- Modelled from the spec: the score of an indexed item comes from the
postings lists — the number of query terms whose posting list contains the
id (spec 4.2 SearchIndex). -/
def indexScore (terms : List String) (idx : Index) (i : Nat) : Nat :=
  (terms.filter (fun t => (idx.Get t).contains i)).length

/-- Modelled from the spec: SearchIndex(phrase, limit) — the identical
normalization, scoring, ordering and truncation contract as Search, but
with scores taken from the index's postings lists instead of a full scan
(spec 4.2). -/
def Service.SearchIndex (terms : List String) (idx : Index) (limit : Nat) :
    Except Err (List (Nat × Nat)) :=
  let scored :=
    (idx.entries.map (fun c => (c.id, indexScore terms idx c.id))).filter
      (fun p => 0 < p.2)
  let ranked := List.insertionSort rankRel scored
  if ranked.isEmpty then .error .notFound
  else .ok (truncate limit ranked)

/-- Modelled from the spec: the fetch loop of BuildIndex over the id range
1..lastID — ids whose fetch returns NotFound "are skipped without failing
the build; any other fetch error aborts the build" (spec 4.2). -/
def buildEntries (fetch : Nat → Except Err Comics) : List Nat → Except Err (List Comics)
  | [] => .ok []
  | i :: rest =>
    match fetch i with
    | .ok c => (buildEntries fetch rest).map (fun l => c :: l)
    | .error .notFound => buildEntries fetch rest
    | .error e => .error e

/-- Modelled from the spec: BuildIndex — read the current last-known id,
re-fetch every still-present item of 1..lastID, derive a fresh index and
atomically replace the old one only on success; on any failure (including
a failure reading the last-known id) the previous index remains in place
(spec 4.2 and 7).  Returns the call's outcome together with the index that
serves afterwards. -/
def Service.BuildIndex (lastID : Except Err Nat) (fetch : Nat → Except Err Comics)
    (old : Index) : Except Err Unit × Index :=
  match lastID with
  | .error e => (.error e, old)
  | .ok n =>
    match buildEntries fetch (List.range' 1 n) with
    | .ok entries => (.ok (), ⟨entries⟩)
    | .error e => (.error e, old)

/-- The store-backed item fetch (spec 6 CorpusStorePort): Get returns the
stored item with the requested id, or NotFound. -/
def Store.Get (st : Store) (i : Nat) : Except Err Comics :=
  match st.items.find? (fun c => c.id == i) with
  | some c => .ok c
  | none => .error .notFound

/-- The last-known id of the store (spec 6, LastID of the DB port): the
maximum stored id. -/
def Store.LastID (st : Store) : Nat :=
  st.items.foldr (fun c m => max c.id m) 0

end SearchCore

namespace UpdateCore

/-- Errors of the update core: the single-flight conflict ErrAlreadyExists,
an absent item, or an upstream failure carrying its message. -/
inductive Err where
  | alreadyExists
  | notFound
  | upstream (msg : String)
deriving Repr, DecidableEq

/-- Modelled from the spec: the Orchestrator's process-scoped ingestion
state — "an atomic boolean field owned by one Orchestrator instance"
(spec 3 IngestionState and 9). -/
structure Orch where
  inProgress : Bool
deriving Repr, DecidableEq

/-- One action on the single-flight flag: some caller attempts to begin an
Update pass, or the pass currently holding the flag finishes and releases
it on its exit path. -/
inductive Action where
  | begin (caller : Nat)
  | finish
deriving Repr, DecidableEq

/-- The observable outcome of one action: a begin either acquires the flag
and proceeds, or fails with AlreadyExists; a finish releases the flag. -/
inductive Outcome where
  | proceeded (caller : Nat)
  | rejected (caller : Nat)
  | released
deriving Repr, DecidableEq

/-- Modelled from the spec: atomic test-and-set acquisition of the
single-flight flag — "acquisition is a non-blocking attempt, not a wait
queue; losers fail immediately rather than queuing" (spec 4.1); a rejected
begin completes within its own step and leaves the state unchanged. -/
def step (s : Orch) : Action → Orch × Outcome
  | .begin c => if s.inProgress then (s, .rejected c) else (⟨true⟩, .proceeded c)
  | .finish => (⟨false⟩, .released)

/-- Run an interleaving of begin and finish actions from a state,
collecting the outcome of every action in order. -/
def run (s : Orch) : List Action → Orch × List Outcome
  | [] => (s, [])
  | a :: rest =>
    let p := step s a
    let q := run p.1 rest
    (q.1, p.2 :: q.2)

/-- How one outcome changes the number of Update passes currently
proceeding: a proceeded begin opens a pass, a release closes one, a
rejected begin opens nothing. -/
def activeStep (n : Nat) (o : Outcome) : Nat :=
  match o with
  | .proceeded _ => n + 1
  | .released => n - 1
  | .rejected _ => n

/-- The number of Update passes still proceeding after a sequence of
outcomes. -/
def activeAfter (os : List Outcome) : Nat :=
  os.foldl activeStep 0

/-- An item fetched from the source feed, as the update pass persists it:
its id and url (the remaining fields carry no algorithmic weight). -/
structure XKCDInfo where
  id : Nat
  url : String
deriving Repr, DecidableEq

/-- Modelled from the spec: the missing ids of one Update pass — "compute
missing ids = set 1..latest minus stored" (spec 4.1 step c). -/
def missingIDs (stored : List Nat) (latest : Nat) : List Nat :=
  (List.range' 1 latest).filter (fun i => !stored.contains i)

/-- Modelled from the spec: fetching and persisting each missing id in one
Update pass — "any single fetch/persist failure aborts the remainder of
the pass and surfaces the error" (spec 4.1 steps d to f).  Returns the
items persisted by the pass. -/
def fetchAll (fetch : Nat → Except Err XKCDInfo) : List Nat → Except Err (List XKCDInfo)
  | [] => .ok []
  | i :: rest =>
    match fetch i with
    | .ok x => (fetchAll fetch rest).map (fun l => x :: l)
    | .error e => .error e

/-- Modelled from the spec: one Update pass after the flag is acquired
(spec 4.1 steps a to f): read the stored ids, query the latest upstream
id, compute the missing ids and fetch and persist each of them; a failure
reading the latest id aborts the pass. -/
def updatePass (stored : List Nat) (latest : Except Err Nat)
    (fetch : Nat → Except Err XKCDInfo) : Except Err (List XKCDInfo) :=
  match latest with
  | .error e => .error e
  | .ok n => fetchAll fetch (missingIDs stored n)

/-- Modelled from the spec: the status constant for an idle Orchestrator
(spec 4.1 Status). -/
def StatusIdle : String := "idle"

/-- Modelled from the spec: the status constant for a running Orchestrator
(spec 4.1 Status). -/
def StatusRunning : String := "running"

/-- Modelled from the spec: Status() of the Orchestrator — a total read of
the in-progress flag that "returns Idle|Running; never fails" (spec 4.1). -/
def Orch.StatusOf (s : Orch) : String :=
  if s.inProgress then StatusRunning else StatusIdle

end UpdateCore

namespace UpdateGrpc

/-- The gRPC status codes this server uses. -/
inductive GrpcCode where
  | alreadyExists
  | internal
deriving Repr, DecidableEq

/-- The reply of an update gRPC handler: success, a gRPC status error with
code and message, or the core's error returned as-is (server.go returns
unexpected core errors unchanged). -/
inductive Reply where
  | ok
  | grpcErr (code : GrpcCode) (msg : String)
  | passthrough (e : UpdateCore.Err)
deriving Repr, DecidableEq

/-- Server.Update from server.go: run the core Update; if it fails with
ErrAlreadyExists reply with gRPC code AlreadyExists and message "update
already runs", any other core error is returned as-is; only after a
successful Update is PublishDBUpdateEvent called, and a publish failure
becomes an Internal gRPC error carrying the publish error text.  The
boolean records whether the publisher was invoked. -/
def Server.Update (upd : Except UpdateCore.Err Unit) (pub : Except String Unit) :
    Reply × Bool :=
  match upd with
  | .error e =>
    if e = .alreadyExists then (.grpcErr .alreadyExists "update already runs", false)
    else (.passthrough e, false)
  | .ok _ =>
    match pub with
    | .error msg => (.grpcErr .internal msg, true)
    | .ok _ => (.ok, true)

/-- Server.Drop from server.go: run the core Drop; a core error is returned
as-is; only after a successful Drop is PublishDBDropEvent called, and a
publish failure becomes an Internal gRPC error carrying the publish error
text.  The boolean records whether the publisher was invoked. -/
def Server.Drop (drop : Except UpdateCore.Err Unit) (pub : Except String Unit) :
    Reply × Bool :=
  match drop with
  | .error e => (.passthrough e, false)
  | .ok _ =>
    match pub with
    | .error msg => (.grpcErr .internal msg, true)
    | .ok _ => (.ok, true)

/-- The protobuf status values of the Status reply. -/
inductive StatusReply where
  | idle
  | running
deriving Repr, DecidableEq

/-- Server.Status from server.go: map the service's status onto the
protobuf reply; any value other than StatusIdle or StatusRunning falls
through to an Internal "unknown status from service" error. -/
def Server.Status (st : String) : Except (GrpcCode × String) StatusReply :=
  if st = UpdateCore.StatusIdle then .ok .idle
  else if st = UpdateCore.StatusRunning then .ok .running
  else .error (.internal, "unknown status from service")

end UpdateGrpc

namespace SearchGrpc

/-- The reply of the search gRPC Search handler: the result list, a gRPC
NotFound status error, or any other core error passed through as-is. -/
inductive Reply where
  | ok (comics : List (Nat × Nat))
  | grpcNotFound
  | passthrough (e : SearchCore.Err)
deriving Repr, DecidableEq

/-- Modelled from the spec: the search gRPC server's mapping of the core's
Search result, pinned by the in-repo test TestSearch_NotFoundMappedToGRPC:
core ErrNotFound is mapped to gRPC code NotFound, any other error is
passed through unchanged (test TestSearch_UnexpectedErrorPassedThrough). -/
def Server.SearchReply (res : Except SearchCore.Err (List (Nat × Nat))) : Reply :=
  match res with
  | .ok l => .ok l
  | .error .notFound => .grpcNotFound
  | .error e => .passthrough e

end SearchGrpc

namespace RestAPI

/-- The body written by a REST mutation handler: nothing, or the text of a
core error (http.Error writes the error text). -/
inductive Body where
  | empty
  | errText (e : UpdateCore.Err)
deriving Repr, DecidableEq

/-- NewUpdateHandler from api.go: call the core Update; when it fails with
ErrAlreadyExists respond 202 Accepted with the error text as body, on any
other error respond 500 Internal Server Error with the error text; on
success nothing is written, so the response is an empty 200. -/
def NewUpdateHandler (res : Except UpdateCore.Err Unit) : Nat × Body :=
  match res with
  | .error e =>
    if e = .alreadyExists then (202, .errText e)
    else (500, .errText e)
  | .ok _ => (200, .empty)

/-- The status code of NewSearchHandler from api.go for a core Search
outcome: core ErrNotFound responds 404 Not Found, any other error responds
500, success responds 200 with the encoded comics reply. -/
def searchStatus (res : Except SearchCore.Err (List (Nat × Nat))) : Nat :=
  match res with
  | .error .notFound => 404
  | .error _ => 500
  | .ok _ => 200

end RestAPI

namespace Initiator

/-- A ready channel observed by the select inside RunIndexUpdate's loop:
the context's Done channel (process shutdown), or the ticker's channel. -/
inductive LoopEvent where
  | ctxDone
  | tick
deriving Repr, DecidableEq

/-- One iteration of the for/select loop of RunIndexUpdate
(index_updater.go): on ctx.Done the branch only logs "quit updater" — it
does not return — and on a ticker fire it calls BuildIndex; neither branch
leaves the loop.  Returns how many BuildIndex calls the iteration makes
and whether it exits the loop. -/
def loopIteration : LoopEvent → Nat × Bool
  | .ctxDone => (0, false)
  | .tick => (1, false)

/-- The BuildIndex calls made by the loop while it consumes a sequence of
ready events, in order. -/
def loopBuilds : List LoopEvent → Nat
  | [] => 0
  | e :: rest => (loopIteration e).1 + loopBuilds rest

/-- RunIndexUpdate from index_updater.go: one BuildIndex immediately at
start, then the for/select loop processing ready events. -/
def runIndexUpdateBuilds (evs : List LoopEvent) : Nat :=
  1 + loopBuilds evs

end Initiator

namespace UpdateCore

/-- Helper: along any run, the number of currently proceeding passes always
equals one when the in-progress flag is set and zero when it is clear. -/
theorem run_active_eq (acts : List Action) :
    ∀ (s : Orch) (n : Nat), n = (if s.inProgress then 1 else 0) →
      ((run s acts).2).foldl activeStep n =
        (if (run s acts).1.inProgress then 1 else 0) := by
  induction acts with
  | nil => intro s n h; simpa [run] using h
  | cons a rest ih =>
    intro s n h
    simp only [run, List.foldl_cons]
    apply ih
    cases a with
    | begin c =>
      by_cases hs : s.inProgress = true
      · simp [step, hs, activeStep, h]
      · simp only [Bool.not_eq_true] at hs
        simp [step, hs, activeStep, h]
    | finish =>
      cases hs : s.inProgress <;> simp [step, activeStep, h, hs]

end UpdateCore

/-- C7: the update gRPC server publishes only after a successful mutation —
PublishDBUpdateEvent is invoked exactly when the core Update succeeded and
PublishDBDropEvent exactly when Drop succeeded; a publish failure after a
successful mutation is reported as a gRPC Internal error carrying the
publish error text, while a failed mutation returns the core's error as-is
(or gRPC AlreadyExists for the single-flight conflict), and the two
failure conditions are distinct. -/
theorem C7_publish_after_mutation_success :
    (∀ (u : Except UpdateCore.Err Unit) (p : Except String Unit),
      (UpdateGrpc.Server.Update u p).2 = true ↔ u = .ok ()) ∧
    (∀ (d : Except UpdateCore.Err Unit) (p : Except String Unit),
      (UpdateGrpc.Server.Drop d p).2 = true ↔ d = .ok ()) ∧
    (∀ m : String,
      UpdateGrpc.Server.Update (.ok ()) (.error m) = (.grpcErr .internal m, true)) ∧
    (∀ m : String,
      UpdateGrpc.Server.Drop (.ok ()) (.error m) = (.grpcErr .internal m, true)) ∧
    (∀ (e : UpdateCore.Err) (p : Except String Unit), e ≠ .alreadyExists →
      UpdateGrpc.Server.Update (.error e) p = (.passthrough e, false)) ∧
    (∀ p : Except String Unit,
      UpdateGrpc.Server.Update (.error .alreadyExists) p =
        (.grpcErr .alreadyExists "update already runs", false)) ∧
    (∀ (e : UpdateCore.Err) (p : Except String Unit),
      UpdateGrpc.Server.Drop (.error e) p = (.passthrough e, false)) ∧
    (∀ (m : String) (e : UpdateCore.Err),
      UpdateGrpc.Reply.grpcErr .internal m ≠ .passthrough e) := by
  refine ⟨?_, ?_, ?_, ?_, ?_, ?_, ?_, ?_⟩
  · intro u p
    cases u with
    | ok v =>
      cases v
      cases p <;> simp [UpdateGrpc.Server.Update]
    | error e =>
      by_cases he : e = .alreadyExists <;> simp [UpdateGrpc.Server.Update, he]
  · intro d p
    cases d with
    | ok v =>
      cases v
      cases p <;> simp [UpdateGrpc.Server.Drop]
    | error e => simp [UpdateGrpc.Server.Drop]
  · intro m; rfl
  · intro m; rfl
  · intro e p he; simp [UpdateGrpc.Server.Update, he]
  · intro p; rfl
  · intro e p; rfl
  · intro m e; simp

/-- C7 witness: the theorem applied at concrete inputs. -/
theorem C7_publish_after_mutation_success_witness :
    (UpdateGrpc.Server.Update (.ok ()) (.ok ())).2 = true ∧
    UpdateGrpc.Server.Update (.error (.upstream "db gone")) (.ok ()) =
      (.passthrough (.upstream "db gone"), false) := by
  constructor
  · exact (C7_publish_after_mutation_success.1 (.ok ()) (.ok ())).mpr rfl
  · exact C7_publish_after_mutation_success.2.2.2.2.1 (.upstream "db gone") (.ok ())
      (by decide)

/-- C9: in every state of the Orchestrator, Status returns exactly Idle
(when no ingestion pass is in progress) or Running (when one is) and never
fails, so the gRPC Status handler's error branch for an unknown status
value is unreachable: the handler always answers with the matching
protobuf status. -/
theorem C9_status_never_fails :
    ∀ s : UpdateCore.Orch,
      UpdateGrpc.Server.Status s.StatusOf =
        .ok (if s.inProgress then .running else .idle) := by
  intro s
  obtain ⟨b⟩ := s
  cases b <;> rfl

/-- C10: the REST update handler maps the single-flight conflict to a
non-error-looking response — core ErrAlreadyExists yields 202 Accepted
with the error text as body, every other Update error yields 500 Internal
Server Error, and success yields an empty 200 response. -/
theorem C10_rest_update_handler :
    RestAPI.NewUpdateHandler (.error .alreadyExists) =
      (202, .errText .alreadyExists) ∧
    (∀ e : UpdateCore.Err, e ≠ .alreadyExists →
      RestAPI.NewUpdateHandler (.error e) = (500, .errText e)) ∧
    RestAPI.NewUpdateHandler (.ok ()) = (200, .empty) := by
  refine ⟨rfl, ?_, rfl⟩
  intro e he
  simp [RestAPI.NewUpdateHandler, he]

/-- C10 witness: the theorem applied at a concrete non-conflict error. -/
theorem C10_rest_update_handler_witness :
    RestAPI.NewUpdateHandler (.error (.upstream "boom")) =
      (500, .errText (.upstream "boom")) :=
  C10_rest_update_handler.2.1 (.upstream "boom") (by decide)

/-- C2: single-flight on Update — an attempt to begin a pass while one is
in progress fails immediately with AlreadyExists, leaving the state
unchanged (no blocking, no queue); along every interleaving of begin and
finish actions from the idle state at most one pass is ever proceeding;
and the gRPC server maps the core's ErrAlreadyExists to gRPC code
AlreadyExists. -/
theorem C2_single_flight :
    (∀ (s : UpdateCore.Orch) (c : Nat), s.inProgress = true →
      UpdateCore.step s (.begin c) = (s, .rejected c)) ∧
    (∀ acts : List UpdateCore.Action,
      UpdateCore.activeAfter ((UpdateCore.run ⟨false⟩ acts).2) ≤ 1) ∧
    (∀ p : Except String Unit,
      UpdateGrpc.Server.Update (.error .alreadyExists) p =
        (.grpcErr .alreadyExists "update already runs", false)) := by
  refine ⟨?_, ?_, ?_⟩
  · intro s c hs
    simp [UpdateCore.step, hs]
  · intro acts
    have h := UpdateCore.run_active_eq acts ⟨false⟩ 0 (by simp)
    unfold UpdateCore.activeAfter
    rw [h]
    split <;> omega
  · intro p; rfl

/-- C2 witness: the theorem applied at a concrete busy state and a concrete
interleaving in which a second and third caller race a first one. -/
theorem C2_single_flight_witness :
    UpdateCore.step ⟨true⟩ (.begin 2) = (⟨true⟩, .rejected 2) ∧
    UpdateCore.activeAfter
      ((UpdateCore.run ⟨false⟩
        [.begin 1, .begin 2, .begin 3, .finish, .begin 4]).2) ≤ 1 := by
  constructor
  · exact C2_single_flight.1 ⟨true⟩ 2 rfl
  · exact C2_single_flight.2.1 [.begin 1, .begin 2, .begin 3, .finish, .begin 4]

/-- C8: the periodic rebuild task builds once immediately at start and once
per tick, but contrary to the claim it does not stop when the shutdown
context is cancelled: the ctx.Done branch of the select only logs and does
not return, so the loop never exits and a tick arriving after cancellation
still triggers another BuildIndex — processing the event sequence
[ctxDone, tick] performs a second build after the cancellation. -/
theorem C8_loop_survives_cancellation :
    Initiator.loopIteration .ctxDone = (0, false) ∧
    Initiator.loopIteration .tick = (1, false) ∧
    Initiator.runIndexUpdateBuilds [] = 1 ∧
    Initiator.runIndexUpdateBuilds [.ctxDone, .tick] = 2 := by
  refine ⟨rfl, rfl, rfl, rfl⟩

/-- C6: if after scoring no stored item has a positive score, Search fails
with NotFound — which the REST handler maps to HTTP 404 and the search
gRPC server to gRPC code NotFound — and Search never returns an empty
success result. -/
theorem C6_no_match_not_found :
    (∀ (terms : List String) (st : SearchCore.Store) (L : Nat),
      (∀ c ∈ st.items, SearchCore.score terms c = 0) →
      SearchCore.Service.Search terms st L = .error .notFound ∧
      RestAPI.searchStatus (SearchCore.Service.Search terms st L) = 404 ∧
      SearchGrpc.Server.SearchReply (SearchCore.Service.Search terms st L) =
        .grpcNotFound) ∧
    (∀ (terms : List String) (st : SearchCore.Store) (L : Nat)
        (r : List (Nat × Nat)),
      SearchCore.Service.Search terms st L = .ok r → r ≠ []) := by
  constructor
  · intro terms st L h
    have hscored : SearchCore.scoredOf terms st.items = [] := by
      unfold SearchCore.scoredOf
      rw [List.filter_eq_nil_iff]
      intro p hp
      obtain ⟨c, hc, rfl⟩ := List.mem_map.mp hp
      simp [h c hc]
    have hs : SearchCore.Service.Search terms st L = .error .notFound := by
      simp [SearchCore.Service.Search, hscored]
    exact ⟨hs, by rw [hs]; rfl, by rw [hs]; rfl⟩
  · intro terms st L r h
    unfold SearchCore.Service.Search at h
    by_cases hemp :
        (List.insertionSort SearchCore.rankRel
          (SearchCore.scoredOf terms st.items)).isEmpty
    · simp [hemp] at h
    · simp only [hemp, if_false, Bool.false_eq_true] at h
      have hne : List.insertionSort SearchCore.rankRel
          (SearchCore.scoredOf terms st.items) ≠ [] := by
        intro hq
        rw [hq] at hemp
        exact hemp rfl
      have hr : SearchCore.truncate L
          (List.insertionSort SearchCore.rankRel
            (SearchCore.scoredOf terms st.items)) = r := by
        injection h
      rw [← hr]
      unfold SearchCore.truncate
      by_cases hL : L = 0
      · simpa [hL] using hne
      · simp only [hL, if_false]
        intro htake
        have hlen := congrArg List.length htake
        rw [List.length_take] at hlen
        simp only [List.length_nil] at hlen
        have hpos := List.length_pos.mpr hne
        omega

/-- C6 witness: the theorem applied at a store whose only item misses every
query term, and at the happy-path store. -/
theorem C6_no_match_not_found_witness :
    SearchCore.Service.Search ["a"] ⟨[⟨1, ["b"]⟩]⟩ 5 = .error .notFound ∧
    ([(3, 2), (2, 1)] : List (Nat × Nat)) ≠ [] := by
  constructor
  · exact (C6_no_match_not_found.1 ["a"] ⟨[⟨1, ["b"]⟩]⟩ 5 (by decide)).1
  · exact C6_no_match_not_found.2 ["happy", "year"]
      ⟨[⟨2, ["new", "year"]⟩, ⟨3, ["happy", "year"]⟩]⟩ 10 [(3, 2), (2, 1)] (by rfl)

namespace UpdateCore

/-- Helper: when every missing id fetches successfully, the pass returns
exactly the fetched items, whose ids are the requested ones. -/
theorem fetchAll_ok (fetch : Nat → Except Err XKCDInfo)
    (hid : ∀ i x, fetch i = .ok x → x.id = i) :
    ∀ ids : List Nat, (∀ i ∈ ids, ∃ x, fetch i = .ok x) →
      ∃ items, fetchAll fetch ids = .ok items ∧
        items.map (fun x => x.id) = ids := by
  intro ids
  induction ids with
  | nil => intro _; exact ⟨[], rfl, rfl⟩
  | cons i rest ih =>
    intro h
    obtain ⟨x, hx⟩ := h i (List.mem_cons_self i rest)
    obtain ⟨items, hfa, hmap⟩ := ih (fun j hj => h j (List.mem_cons_of_mem i hj))
    refine ⟨x :: items, ?_, ?_⟩
    · simp [fetchAll, hx, hfa, Except.map]
    · simp [hmap, hid i x hx]

/-- Helper: whenever the fetch loop succeeds, the persisted items carry
exactly the requested ids, in order. -/
theorem fetchAll_ok_inv (fetch : Nat → Except Err XKCDInfo)
    (hid : ∀ i x, fetch i = .ok x → x.id = i) :
    ∀ (ids : List Nat) (items : List XKCDInfo),
      fetchAll fetch ids = .ok items →
      items.map (fun x => x.id) = ids := by
  intro ids
  induction ids with
  | nil =>
    intro items h
    injection h with h
    rw [← h]
    rfl
  | cons i rest ih =>
    intro items h
    cases hx : fetch i with
    | error e => simp [fetchAll, hx] at h
    | ok x =>
      simp only [fetchAll, hx] at h
      cases hr : fetchAll fetch rest with
      | error e => rw [hr] at h; simp [Except.map] at h
      | ok items2 =>
        rw [hr] at h
        simp only [Except.map, Except.ok.injEq] at h
        rw [← h]
        simp [ih items2 hr, hid i x hx]

end UpdateCore

/-- C4: provided the source feed returns items under their requested ids,
every successful Update pass persists exactly the missing ids 1..latest
minus stored (already-present ids are skipped); the pass succeeds whenever
every missing id fetches; and when the stored set already covers 1..latest
(a second Update with no new upstream items) the pass persists nothing and
returns success. -/
theorem C4_update_persists_missing :
    ∀ (stored : List Nat) (n : Nat)
      (fetch : Nat → Except UpdateCore.Err UpdateCore.XKCDInfo),
      (∀ i x, fetch i = .ok x → x.id = i) →
      (∀ items, UpdateCore.updatePass stored (.ok n) fetch = .ok items →
        items.map (fun x => x.id) = UpdateCore.missingIDs stored n) ∧
      ((∀ i ∈ UpdateCore.missingIDs stored n, ∃ x, fetch i = .ok x) →
        ∃ items, UpdateCore.updatePass stored (.ok n) fetch = .ok items ∧
          items.map (fun x => x.id) = UpdateCore.missingIDs stored n) ∧
      ((∀ i, 1 ≤ i → i ≤ n → stored.contains i) →
        UpdateCore.updatePass stored (.ok n) fetch = .ok []) := by
  intro stored n fetch hid
  refine ⟨?_, ?_, ?_⟩
  · intro items h
    exact UpdateCore.fetchAll_ok_inv fetch hid (UpdateCore.missingIDs stored n) items h
  · intro h
    simpa [UpdateCore.updatePass] using
      UpdateCore.fetchAll_ok fetch hid (UpdateCore.missingIDs stored n) h
  · intro h
    have hm : UpdateCore.missingIDs stored n = [] := by
      unfold UpdateCore.missingIDs
      rw [List.filter_eq_nil_iff]
      intro i hi
      rw [List.mem_range'_1] at hi
      have hc := h i hi.1 (by omega)
      have hmem : i ∈ stored := by simpa using hc
      simp [hmem]
    simp [UpdateCore.updatePass, hm, UpdateCore.fetchAll]

/-- C4 witness: the theorem applied at the happy-path scenario (stored id
1, latest id 3 — ids 2 and 3 are fetched) and at an already-complete store
(nothing is persisted). -/
theorem C4_update_persists_missing_witness :
    (∃ items,
      UpdateCore.updatePass [1] (.ok 3) (fun i => .ok ⟨i, "url"⟩) = .ok items ∧
      items.map (fun x => x.id) = UpdateCore.missingIDs [1] 3) ∧
    UpdateCore.updatePass [1, 2, 3] (.ok 3) (fun i => .ok ⟨i, "url"⟩) = .ok [] := by
  have hid : ∀ i x,
      (fun i => (Except.ok ⟨i, "url"⟩ : Except UpdateCore.Err UpdateCore.XKCDInfo)) i
        = .ok x → x.id = i := by
    intro i x hx
    injection hx with hx
    rw [← hx]
  constructor
  · exact (C4_update_persists_missing [1] 3 _ hid).2.1
      (fun i _ => ⟨⟨i, "url"⟩, rfl⟩)
  · exact (C4_update_persists_missing [1, 2, 3] 3 _ hid).2.2 (by decide)

namespace SearchCore

/-- Helper: when every fetch in the range answers with an item or NotFound,
the build loop succeeds and keeps exactly the found items, skipping the
NotFound ids. -/
theorem buildEntries_ok (fetch : Nat → Except Err Comics) :
    ∀ ids : List Nat,
      (∀ i ∈ ids, fetch i = .error .notFound ∨ ∃ c, fetch i = .ok c) →
      buildEntries fetch ids =
        .ok (ids.filterMap (fun i => (fetch i).toOption)) := by
  intro ids
  induction ids with
  | nil => intro _; rfl
  | cons i rest ih =>
    intro h
    have hrest := ih (fun j hj => h j (List.mem_cons_of_mem i hj))
    rcases h i (List.mem_cons_self i rest) with hnf | ⟨c, hc⟩
    · simp [buildEntries, hnf, hrest, List.filterMap_cons, Except.toOption]
    · simp [buildEntries, hc, hrest, List.filterMap_cons, Except.toOption, Except.map]

/-- Helper: a hard (non-NotFound) fetch error anywhere in the range makes
the build loop fail. -/
theorem buildEntries_error (fetch : Nat → Except Err Comics) :
    ∀ ids : List Nat,
      (∃ i ∈ ids, ∃ msg, fetch i = .error (.upstream msg)) →
      ∃ e, buildEntries fetch ids = .error e := by
  intro ids
  induction ids with
  | nil =>
    rintro ⟨i, hi, _⟩
    simp at hi
  | cons i rest ih =>
    rintro ⟨j, hj, msg, hmsg⟩
    by_cases hij : j = i
    · subst hij
      exact ⟨.upstream msg, by simp [buildEntries, hmsg]⟩
    · have hjr : j ∈ rest := by
        rcases List.mem_cons.mp hj with h1 | h1
        · exact absurd h1 hij
        · exact h1
      obtain ⟨e, he⟩ := ih ⟨j, hjr, msg, hmsg⟩
      cases hfi : fetch i with
      | ok c => exact ⟨e, by simp [buildEntries, hfi, he, Except.map]⟩
      | error e2 =>
        cases e2 with
        | notFound => exact ⟨e, by simp [buildEntries, hfi, he]⟩
        | upstream m => exact ⟨.upstream m, by simp [buildEntries, hfi]⟩

end SearchCore

/-- C5: during BuildIndex every id whose fetch returns NotFound is skipped
and the build still succeeds with exactly the found items; a failure
reading the last-known id returns that error, any hard fetch error makes
the build fail, and on every failure the previously built index remains in
place unchanged. -/
theorem C5_build_index_error_handling :
    (∀ (e : SearchCore.Err) (fetch : Nat → Except SearchCore.Err SearchCore.Comics)
        (old : SearchCore.Index),
      SearchCore.Service.BuildIndex (.error e) fetch old = (.error e, old)) ∧
    (∀ (lastID : Except SearchCore.Err Nat)
        (fetch : Nat → Except SearchCore.Err SearchCore.Comics)
        (old : SearchCore.Index) (e : SearchCore.Err),
      (SearchCore.Service.BuildIndex lastID fetch old).1 = .error e →
      (SearchCore.Service.BuildIndex lastID fetch old).2 = old) ∧
    (∀ (n : Nat) (fetch : Nat → Except SearchCore.Err SearchCore.Comics)
        (old : SearchCore.Index),
      (∀ i ∈ List.range' 1 n, fetch i = .error .notFound ∨ ∃ c, fetch i = .ok c) →
      SearchCore.Service.BuildIndex (.ok n) fetch old =
        (.ok (), ⟨(List.range' 1 n).filterMap (fun i => (fetch i).toOption)⟩)) ∧
    (∀ (n : Nat) (fetch : Nat → Except SearchCore.Err SearchCore.Comics)
        (old : SearchCore.Index),
      (∃ i ∈ List.range' 1 n, ∃ msg, fetch i = .error (.upstream msg)) →
      ∃ e, SearchCore.Service.BuildIndex (.ok n) fetch old = (.error e, old)) := by
  refine ⟨?_, ?_, ?_, ?_⟩
  · intro e fetch old; rfl
  · intro lastID fetch old e h
    cases lastID with
    | error e2 => rfl
    | ok n =>
      cases hb : SearchCore.buildEntries fetch (List.range' 1 n) with
      | ok entries => simp [SearchCore.Service.BuildIndex, hb] at h
      | error e2 => simp [SearchCore.Service.BuildIndex, hb]
  · intro n fetch old h
    have hb := SearchCore.buildEntries_ok fetch (List.range' 1 n) h
    simp [SearchCore.Service.BuildIndex, hb]
  · intro n fetch old h
    obtain ⟨e, he⟩ := SearchCore.buildEntries_error fetch (List.range' 1 n) h
    exact ⟨e, by simp [SearchCore.Service.BuildIndex, he]⟩

namespace SearchCore

/-- Helper: characterization of a successful Search call. -/
theorem search_ok_iff (terms : List String) (st : Store) (L : Nat)
    (r : List (Nat × Nat)) :
    Service.Search terms st L = .ok r ↔
      List.insertionSort rankRel (scoredOf terms st.items) ≠ [] ∧
      r = truncate L (List.insertionSort rankRel (scoredOf terms st.items)) := by
  unfold Service.Search
  by_cases hemp : (List.insertionSort rankRel (scoredOf terms st.items)).isEmpty
  · have hnil : List.insertionSort rankRel (scoredOf terms st.items) = [] :=
      List.isEmpty_iff.mp hemp
    simp [hemp, hnil]
  · have hne : List.insertionSort rankRel (scoredOf terms st.items) ≠ [] := by
      intro hq
      rw [hq] at hemp
      exact hemp rfl
    simp [hemp, hne, eq_comm]

/-- Helper: membership in the scored-and-filtered list. -/
theorem mem_scoredOf (terms : List String) (items : List Comics) (p : Nat × Nat) :
    p ∈ scoredOf terms items ↔
      (∃ c ∈ items, p.1 = c.id ∧ p.2 = score terms c) ∧ 0 < p.2 := by
  unfold scoredOf
  rw [List.mem_filter]
  constructor
  · rintro ⟨hp, hpos⟩
    obtain ⟨c, hc, rfl⟩ := List.mem_map.mp hp
    exact ⟨⟨c, hc, rfl, rfl⟩, by simpa using hpos⟩
  · rintro ⟨⟨c, hc, h1, h2⟩, hpos⟩
    exact ⟨List.mem_map.mpr ⟨c, hc, (Prod.ext h1 h2).symm⟩, by simpa using hpos⟩

/-- Helper: with pairwise distinct stored ids, the scored entries carry
pairwise distinct ids as well. -/
theorem scoredOf_fst_nodup (terms : List String) (items : List Comics)
    (hn : (items.map (fun c => c.id)).Nodup) :
    ((scoredOf terms items).map (fun p => p.1)).Nodup := by
  unfold scoredOf
  have hsub := List.Sublist.map (fun p : Nat × Nat => p.1)
    (@List.filter_sublist (Nat × Nat) (fun p => decide (0 < p.2))
      (items.map (fun c => (c.id, score terms c))))
  have hmm : (items.map (fun c => (c.id, score terms c))).map (fun p : Nat × Nat => p.1)
      = items.map (fun c => c.id) := by
    rw [List.map_map]
    rfl
  rw [hmm] at hsub
  exact List.Nodup.sublist hsub hn

end SearchCore

namespace SearchCore

/-- Helper: with pairwise distinct ids, find? by id retrieves exactly the
member with that id. -/
theorem find?_id_eq_some (items : List Comics)
    (hn : (items.map (fun c => c.id)).Nodup) :
    ∀ c ∈ items, items.find? (fun x => x.id == c.id) = some c := by
  induction items with
  | nil => intro c hc; cases hc
  | cons a rest ih =>
    intro c hc
    by_cases ha : (a.id == c.id) = true
    · rw [@List.find?_cons_of_pos _ (fun x => x.id == c.id) a rest ha]
      have haid : a.id = c.id := by simpa using ha
      rcases List.mem_cons.mp hc with rfl | hcr
      · rfl
      · exfalso
        have hcm : c.id ∈ rest.map (fun c => c.id) :=
          List.mem_map.mpr ⟨c, hcr, rfl⟩
        have hnot := (List.nodup_cons.mp hn).1
        have hcm2 : a.id ∈ rest.map (fun c => c.id) := by
          rw [haid]
          exact hcm
        exact hnot hcm2
    · rw [@List.find?_cons_of_neg _ (fun x => x.id == c.id) a rest ha]
      have haid : ¬a.id = c.id := by simpa using ha
      rcases List.mem_cons.mp hc with rfl | hcr
      · exact absurd rfl haid
      · exact ih (List.nodup_cons.mp hn).2 c hcr

/-- Helper: a successful store Get returns an item bearing the requested
id. -/
theorem get_ok_id (st : Store) (i : Nat) (c : Comics) (h : st.Get i = .ok c) :
    c.id = i := by
  unfold Store.Get at h
  cases hq : st.items.find? (fun x => x.id == i) with
  | none => rw [hq] at h; cases h
  | some c2 =>
    rw [hq] at h
    injection h with h
    subst h
    have := List.find?_some hq
    simpa using this

/-- Helper: characterization of a successful store Get under distinct
ids. -/
theorem get_ok_iff (st : Store) (hn : (st.items.map (fun c => c.id)).Nodup)
    (i : Nat) (c : Comics) :
    st.Get i = .ok c ↔ c ∈ st.items ∧ c.id = i := by
  constructor
  · intro h
    refine ⟨?_, get_ok_id st i c h⟩
    unfold Store.Get at h
    cases hq : st.items.find? (fun x => x.id == i) with
    | none => rw [hq] at h; cases h
    | some c2 =>
      rw [hq] at h
      injection h with h
      subst h
      exact List.mem_of_find?_eq_some hq
  · rintro ⟨hc, rfl⟩
    unfold Store.Get
    rw [find?_id_eq_some st.items hn c hc]

/-- Helper: a store Get never fails with anything but NotFound. -/
theorem get_ok_or_notFound (st : Store) (i : Nat) :
    st.Get i = .error .notFound ∨ ∃ c, st.Get i = .ok c := by
  unfold Store.Get
  cases st.items.find? (fun x => x.id == i) with
  | none => exact Or.inl rfl
  | some c => exact Or.inr ⟨c, rfl⟩

/-- Helper: every element's id is bounded by the running maximum. -/
theorem foldr_max_le (l : List Comics) :
    ∀ c ∈ l, c.id ≤ l.foldr (fun c m => max c.id m) 0 := by
  induction l with
  | nil => intro c hc; cases hc
  | cons a rest ih =>
    intro c hc
    rcases List.mem_cons.mp hc with rfl | hcr
    · exact le_max_left _ _
    · exact le_trans (ih c hcr) (le_max_right _ _)

/-- Helper: every stored id is at most the store's last-known id. -/
theorem le_LastID (st : Store) (c : Comics) (hc : c ∈ st.items) :
    c.id ≤ st.LastID :=
  foldr_max_le st.items c hc

/-- Helper: a filterMap that can only keep its input element is a
sublist. -/
theorem filterMap_id_sublist (g : Nat → Option Nat) (l : List Nat)
    (hg : ∀ a b, g a = some b → b = a) : (l.filterMap g).Sublist l := by
  induction l with
  | nil => exact List.Sublist.refl _
  | cons a rest ih =>
    rw [List.filterMap_cons]
    cases hq : g a with
    | none => exact List.Sublist.cons a ih
    | some b =>
      have hb := hg a b hq
      subst hb
      exact List.Sublist.cons₂ b ih

/-- Helper: the items kept by the build fetch loop carry pairwise distinct
ids (each surviving id comes from a distinct id of the scanned range). -/
theorem built_fst_nodup (st : Store) (n : Nat) :
    (((List.range' 1 n).filterMap (fun i => (st.Get i).toOption)).map
      (fun c => c.id)).Nodup := by
  rw [List.map_filterMap]
  have hg : ∀ i b,
      Option.map (fun c : Comics => c.id) ((st.Get i).toOption) = some b → b = i := by
    intro i b hb
    cases hq : st.Get i with
    | ok c =>
      rw [hq] at hb
      simp only [Except.toOption, Option.map_some'] at hb
      injection hb with hb
      rw [← hb]
      exact get_ok_id st i c hq
    | error e =>
      rw [hq] at hb
      simp [Except.toOption] at hb
  exact List.Nodup.sublist
    (filterMap_id_sublist _ (List.range' 1 n) hg) (List.nodup_range' _ _)

/-- Helper: with a well-formed store whose last id is within the scanned
range, the build fetch loop keeps exactly the stored items. -/
theorem mem_built_iff (st : Store) (hWF : st.WF) (n : Nat)
    (hn : st.LastID ≤ n) (c : Comics) :
    c ∈ (List.range' 1 n).filterMap (fun i => (st.Get i).toOption) ↔
      c ∈ st.items := by
  rw [List.mem_filterMap]
  constructor
  · rintro ⟨i, _, hf⟩
    have hok : st.Get i = .ok c := by
      cases hq : st.Get i with
      | ok c2 =>
        rw [hq] at hf
        simp only [Except.toOption] at hf
        injection hf with hf
        rw [hf]
      | error e =>
        rw [hq] at hf
        simp [Except.toOption] at hf
    exact ((get_ok_iff st hWF.1 i c).mp hok).1
  · intro hc
    refine ⟨c.id, ?_, ?_⟩
    · rw [List.mem_range'_1]
      have h1 := hWF.2 c hc
      have h2 := le_trans (le_LastID st c hc) hn
      omega
    · rw [(get_ok_iff st hWF.1 c.id c).mpr ⟨hc, rfl⟩]
      rfl

/-- Helper: the freshly built index entries are a permutation of the
stored items. -/
theorem built_perm (st : Store) (hWF : st.WF) (n : Nat) (hn : st.LastID ≤ n) :
    ((List.range' 1 n).filterMap (fun i => (st.Get i).toOption)).Perm st.items := by
  rw [List.perm_ext_iff_of_nodup
    (List.Nodup.of_map _ (built_fst_nodup st n)) (List.Nodup.of_map _ hWF.1)]
  intro c
  exact mem_built_iff st hWF n hn c

/-- Helper: Search depends on the stored items only up to permutation. -/
theorem search_perm (terms : List String) (L : Nat) (st1 st2 : Store)
    (hp : st1.items.Perm st2.items) :
    Service.Search terms st1 L = Service.Search terms st2 L := by
  have hsp : (scoredOf terms st1.items).Perm (scoredOf terms st2.items) := by
    unfold scoredOf
    exact (hp.map _).filter _
  have heq : List.insertionSort rankRel (scoredOf terms st1.items)
      = List.insertionSort rankRel (scoredOf terms st2.items) :=
    List.eq_of_perm_of_sorted
      ((List.perm_insertionSort _ _).trans
        (hsp.trans (List.perm_insertionSort _ _).symm))
      (List.sorted_insertionSort _ _) (List.sorted_insertionSort _ _)
  unfold Service.Search
  rw [heq]

/-- Helper: when the index entries carry pairwise distinct ids, the
postings-derived score of an entry equals its full-scan score, so
SearchIndex coincides with Search over the entries. -/
theorem searchIndex_eq_search (terms : List String) (idx : Index) (L : Nat)
    (hn : (idx.entries.map (fun c => c.id)).Nodup) :
    Service.SearchIndex terms idx L = Service.Search terms ⟨idx.entries⟩ L := by
  have hsc : ∀ c ∈ idx.entries, indexScore terms idx c.id = score terms c := by
    intro c hc
    unfold indexScore score
    congr 1
    apply List.filter_congr
    intro t _
    rw [Bool.eq_iff_iff]
    constructor
    · intro hct
      have hmem : c.id ∈ idx.Get t := List.elem_iff.mp hct
      unfold Index.Get at hmem
      obtain ⟨c2, hc2, hid⟩ := List.mem_map.mp hmem
      rw [List.mem_filter] at hc2
      have hcc : c2 = c := List.inj_on_of_nodup_map hn hc2.1 hc hid
      rw [← hcc]
      exact hc2.2
    · intro hkt
      apply List.elem_iff.mpr
      unfold Index.Get
      exact List.mem_map.mpr ⟨c, List.mem_filter.mpr ⟨hc, hkt⟩, rfl⟩
  have hmap : idx.entries.map (fun c => (c.id, indexScore terms idx c.id))
      = idx.entries.map (fun c => (c.id, score terms c)) := by
    apply List.map_congr_left
    intro c hc
    rw [hsc c hc]
  unfold Service.SearchIndex Service.Search scoredOf
  rw [hmap]

end SearchCore

/-- C3: immediately after a successful BuildIndex over a well-formed store
(distinct positive ids, last-known id covering the store), for every
phrase SearchIndex with limit 0 returns exactly the same ordered result
sequence as the authoritative full-scan Search with limit 0. -/
theorem C3_fresh_index_refines_search :
    ∀ (st : SearchCore.Store) (old : SearchCore.Index) (n : Nat),
      st.WF → st.LastID ≤ n →
      (SearchCore.Service.BuildIndex (.ok n) st.Get old).1 = .ok () ∧
      ∀ terms : List String,
        SearchCore.Service.SearchIndex terms
          (SearchCore.Service.BuildIndex (.ok n) st.Get old).2 0 =
        SearchCore.Service.Search terms st 0 := by
  intro st old n hWF hn
  have hok : ∀ i ∈ List.range' 1 n,
      st.Get i = .error .notFound ∨ ∃ c, st.Get i = .ok c :=
    fun i _ => SearchCore.get_ok_or_notFound st i
  have hbuild := SearchCore.buildEntries_ok st.Get (List.range' 1 n) hok
  have hB : SearchCore.Service.BuildIndex (.ok n) st.Get old =
      (.ok (), ⟨(List.range' 1 n).filterMap (fun i => (st.Get i).toOption)⟩) := by
    simp [SearchCore.Service.BuildIndex, hbuild]
  constructor
  · rw [hB]
  · intro terms
    have hstep :
        SearchCore.Service.SearchIndex terms
          ⟨(List.range' 1 n).filterMap (fun i => (st.Get i).toOption)⟩ 0 =
        SearchCore.Service.Search terms st 0 := by
      rw [SearchCore.searchIndex_eq_search terms
        ⟨(List.range' 1 n).filterMap (fun i => (st.Get i).toOption)⟩ 0
        (SearchCore.built_fst_nodup st n)]
      exact SearchCore.search_perm terms 0
        ⟨(List.range' 1 n).filterMap (fun i => (st.Get i).toOption)⟩ st
        (SearchCore.built_perm st hWF n hn)
    rw [hB]
    exact hstep

/-- C3 witness: the theorem applied at a concrete two-item store and the
phrase terms happy and year. -/
theorem C3_fresh_index_refines_search_witness :
    (SearchCore.Service.BuildIndex (.ok 2)
      (SearchCore.Store.Get ⟨[⟨1, ["happy"]⟩, ⟨2, ["new", "year"]⟩]⟩)
      ⟨[⟨9, ["z"]⟩]⟩).1 = .ok () ∧
    SearchCore.Service.SearchIndex ["happy", "year"]
      (SearchCore.Service.BuildIndex (.ok 2)
        (SearchCore.Store.Get ⟨[⟨1, ["happy"]⟩, ⟨2, ["new", "year"]⟩]⟩)
        ⟨[⟨9, ["z"]⟩]⟩).2 0 =
    SearchCore.Service.Search ["happy", "year"]
      ⟨[⟨1, ["happy"]⟩, ⟨2, ["new", "year"]⟩]⟩ 0 := by
  have h := C3_fresh_index_refines_search
    ⟨[⟨1, ["happy"]⟩, ⟨2, ["new", "year"]⟩]⟩ ⟨[⟨9, ["z"]⟩]⟩ 2
    (by decide) (by decide)
  exact ⟨h.1, h.2 ["happy", "year"]⟩

/-- C1: for a store with pairwise distinct ids, every successful
Search(P, L) result has at most L entries when L > 0; each entry is a
stored item with its score equal to the count of normalized query terms in
its keyword set and scores are positive (zero-score items excluded);
results are strictly descending by score with ties ascending by id; and
limit 0 means unlimited — every positively scored stored item appears. -/
theorem C1_search_ranking :
    ∀ (terms : List String) (st : SearchCore.Store) (L : Nat)
      (r : List (Nat × Nat)),
      (st.items.map (fun c => c.id)).Nodup →
      SearchCore.Service.Search terms st L = .ok r →
      (0 < L → r.length ≤ L) ∧
      (∀ p ∈ r, ∃ c ∈ st.items,
        p.1 = c.id ∧ p.2 = SearchCore.score terms c ∧ 0 < p.2) ∧
      (L = 0 → ∀ c ∈ st.items, 0 < SearchCore.score terms c →
        (c.id, SearchCore.score terms c) ∈ r) ∧
      r.Pairwise (fun a b => b.2 < a.2 ∨ (a.2 = b.2 ∧ a.1 < b.1)) := by
  intro terms st L r hn h
  obtain ⟨hne, hr⟩ := (SearchCore.search_ok_iff terms st L r).mp h
  have hperm : (List.insertionSort SearchCore.rankRel
      (SearchCore.scoredOf terms st.items)).Perm
        (SearchCore.scoredOf terms st.items) :=
    List.perm_insertionSort _ _
  have hsorted : List.Sorted SearchCore.rankRel
      (List.insertionSort SearchCore.rankRel
        (SearchCore.scoredOf terms st.items)) :=
    List.sorted_insertionSort _ _
  have hsub : r.Sublist
      (List.insertionSort SearchCore.rankRel
        (SearchCore.scoredOf terms st.items)) := by
    rw [hr]
    unfold SearchCore.truncate
    split
    · exact List.Sublist.refl _
    · exact List.take_sublist _ _
  refine ⟨?_, ?_, ?_, ?_⟩
  · intro hL
    rw [hr]
    unfold SearchCore.truncate
    rw [if_neg (by omega)]
    rw [List.length_take]
    exact min_le_left _ _
  · intro p hp
    have hps : p ∈ SearchCore.scoredOf terms st.items :=
      hperm.mem_iff.mp (hsub.subset hp)
    obtain ⟨⟨c, hc, h1, h2⟩, hpos⟩ := (SearchCore.mem_scoredOf _ _ _).mp hps
    exact ⟨c, hc, h1, h2, hpos⟩
  · intro hL c hc hpos
    rw [hr]
    unfold SearchCore.truncate
    rw [if_pos hL]
    exact hperm.mem_iff.mpr
      ((SearchCore.mem_scoredOf _ _ _).mpr ⟨⟨c, hc, rfl, rfl⟩, hpos⟩)
  · have hfst : ((List.insertionSort SearchCore.rankRel
        (SearchCore.scoredOf terms st.items)).map (fun p => p.1)).Nodup :=
      (hperm.map (fun p : Nat × Nat => p.1)).nodup_iff.mpr
        (SearchCore.scoredOf_fst_nodup terms st.items hn)
    have hneq : (List.insertionSort SearchCore.rankRel
        (SearchCore.scoredOf terms st.items)).Pairwise
          (fun a b : Nat × Nat => a.1 ≠ b.1) :=
      List.pairwise_map.mp hfst
    have hstrict : (List.insertionSort SearchCore.rankRel
        (SearchCore.scoredOf terms st.items)).Pairwise
          (fun a b : Nat × Nat => b.2 < a.2 ∨ (a.2 = b.2 ∧ a.1 < b.1)) := by
    -- combine sortedness with distinct ids
      refine (List.Pairwise.and hsorted hneq).imp ?_
      rintro a b ⟨hrk, hne2⟩
      unfold SearchCore.rankRel at hrk
      omega
    exact List.Pairwise.sublist hsub hstrict

/-- C1 witness: the theorem applied at the happy-path scenario — store
items 2 and 3, phrase terms happy and year, limit 10, result ids 3 then
2. -/
theorem C1_search_ranking_witness :
    (0 < 10 →
      ([(3, 2), (2, 1)] : List (Nat × Nat)).length ≤ 10) ∧
    (∀ p ∈ ([(3, 2), (2, 1)] : List (Nat × Nat)),
      ∃ c ∈ ({ items := [⟨2, ["new", "year"]⟩, ⟨3, ["happy", "year"]⟩] } :
          SearchCore.Store).items,
        p.1 = c.id ∧ p.2 = SearchCore.score ["happy", "year"] c ∧ 0 < p.2) ∧
    ((10 : Nat) = 0 →
      ∀ c ∈ ({ items := [⟨2, ["new", "year"]⟩, ⟨3, ["happy", "year"]⟩] } :
          SearchCore.Store).items,
        0 < SearchCore.score ["happy", "year"] c →
        (c.id, SearchCore.score ["happy", "year"] c) ∈
          ([(3, 2), (2, 1)] : List (Nat × Nat))) ∧
    ([(3, 2), (2, 1)] : List (Nat × Nat)).Pairwise
      (fun a b => b.2 < a.2 ∨ (a.2 = b.2 ∧ a.1 < b.1)) :=
  C1_search_ranking ["happy", "year"]
    ⟨[⟨2, ["new", "year"]⟩, ⟨3, ["happy", "year"]⟩]⟩ 10 [(3, 2), (2, 1)]
    (by decide) (by rfl)

/-- Sanity check of the embedding against the spec's concrete scenario:
store with items 2 (new, year) and 3 (happy, year); searching happy year
with limit 10 scores item 3 with 2 and item 2 with 1 and returns them in
that order. -/
theorem search_scenario_happy_year :
    SearchCore.Service.Search ["happy", "year"]
      ⟨[⟨2, ["new", "year"]⟩, ⟨3, ["happy", "year"]⟩]⟩ 10 =
    .ok [(3, 2), (2, 1)] := by rfl

/-- Sanity check of the embedding against the spec's concrete scenario:
five items all matching the term tree, limit 2 — exactly the two lowest
ids are returned (score tie broken ascending by id). -/
theorem search_scenario_tree_limit :
    SearchCore.Service.Search ["tree"]
      ⟨[⟨1, ["tree"]⟩, ⟨2, ["tree"]⟩, ⟨3, ["tree"]⟩, ⟨4, ["tree"]⟩,
        ⟨5, ["tree"]⟩]⟩ 2 =
    .ok [(1, 1), (2, 1)] := by rfl

/-- C5 witness: the theorem applied at the IgnoresNotFound scenario (items
1 and 3 present, id 2 deleted) and at a failed read of the last-known
id. -/
theorem C5_build_index_error_handling_witness :
    SearchCore.Service.BuildIndex (.ok 3)
      (SearchCore.Store.Get ⟨[⟨1, ["a"]⟩, ⟨3, ["b"]⟩]⟩) ⟨[⟨9, ["z"]⟩]⟩ =
      (.ok (), ⟨[⟨1, ["a"]⟩, ⟨3, ["b"]⟩]⟩) ∧
    (SearchCore.Service.BuildIndex (.error (.upstream "db error"))
      (SearchCore.Store.Get ⟨[]⟩) ⟨[⟨9, ["z"]⟩]⟩).2 = ⟨[⟨9, ["z"]⟩]⟩ := by
  constructor
  · have h := C5_build_index_error_handling.2.2.1 3
      (SearchCore.Store.Get ⟨[⟨1, ["a"]⟩, ⟨3, ["b"]⟩]⟩) ⟨[⟨9, ["z"]⟩]⟩ ?_
    · exact h
    · intro i hi
      have hi3 : i = 1 ∨ i = 2 ∨ i = 3 := by
        rw [List.mem_range'_1] at hi
        omega
      rcases hi3 with rfl | rfl | rfl
      · exact Or.inr ⟨⟨1, ["a"]⟩, rfl⟩
      · exact Or.inl rfl
      · exact Or.inr ⟨⟨3, ["b"]⟩, rfl⟩
  · exact C5_build_index_error_handling.2.1 (.error (.upstream "db error"))
      (SearchCore.Store.Get ⟨[]⟩) ⟨[⟨9, ["z"]⟩]⟩ (.upstream "db error") rfl
